import Mathlib

/-!
# xxproxy: session core, redirection handler and connection pool

A shallow embedding of `proxy/session.go` and `proxy/connpool.go`.

* Go strings and byte slices are lists of code points (`GoString`); the
  library functions `strings.Fields`, `strconv.Atoi` and `bytes.HasPrefix`
  are given by their documented behaviour on such text.
* The sockets, the connection pool and the dispatcher are collaborators: every
  interaction with them is appended to a log (`Event`), and the outcome of each
  I/O operation is read from an oracle (`World`) indexed by a clock.
* A panic, a nil dereference or `log.Fatalf` ends the process: such runs return
  `Except.error` with the reason (`Abort`).
-/

namespace Proxy

/-! ## Text -/

/-- A Go string or byte slice, as the list of its code points. -/
abbrev GoString := List Char

/-- The predicate `unicode.IsSpace`: the Latin-1 spaces and the code points of
the Unicode `White_Space` property. -/
def isSpace (c : Char) : Bool :=
  let n := c.toNat
  (9 ≤ n && n ≤ 13) || n == 32 || n == 133 || n == 160 || n == 5760 ||
  (8192 ≤ n && n ≤ 8202) || n == 8232 || n == 8233 || n == 8239 || n == 8287 || n == 12288

/-- The loop of `strings.Fields`: `cur` holds the field being read, reversed. -/
def fieldsAux : List Char → List Char → List GoString
  | [], cur => if cur.isEmpty then [] else [cur.reverse]
  | c :: cs, cur =>
    if isSpace c then
      if cur.isEmpty then fieldsAux cs [] else cur.reverse :: fieldsAux cs []
    else fieldsAux cs (c :: cur)

/-- The function `strings.Fields`: the maximal runs of non-space characters of `s`, in order. -/
def Fields (s : GoString) : List GoString := fieldsAux s []

/-- The value of a decimal digit, `none` for any other character. -/
def digitVal (c : Char) : Option Nat :=
  if 48 ≤ c.toNat ∧ c.toNat ≤ 57 then some (c.toNat - 48) else none

/-- The value of a non-empty run of decimal digits read after `acc`. -/
def parseDigits : List Char → Nat → Option Nat
  | [], acc => some acc
  | c :: cs, acc =>
    match digitVal c with
    | none => none
    | some d => parseDigits cs (acc * 10 + d)

/-- The constant `strconv.IntSize` of the 64-bit targets: the width of `int`. -/
def intSize : Nat := 64

/-- The magnitude part of `strconv.Atoi`: digits only, at least one, and the
signed value has to fit `int`. -/
def atoiMagnitude (neg : Bool) (ds : List Char) : Option Int :=
  if ds.isEmpty then none
  else
    match parseDigits ds 0 with
    | none => none
    | some n =>
      if neg then (if n ≤ 2 ^ (intSize - 1) then some (-(n : Int)) else none)
      else (if n < 2 ^ (intSize - 1) then some (n : Int) else none)

/-- The function `strconv.Atoi`: an optional sign, then decimal digits; `none`
stands for a non-nil error, of form or of range. -/
def Atoi (s : GoString) : Option Int :=
  match s with
  | [] => none
  | c :: cs =>
    if c = '+' then atoiMagnitude false cs
    else if c = '-' then atoiMagnitude true cs
    else atoiMagnitude false (c :: cs)

/-- The decimal text of a natural number, as `strconv.Itoa` prints it. -/
def decimal (n : Nat) : GoString := Nat.toDigits 10 n

/-- The reasons for which the process stops. -/
inductive Abort
  | impossible
  | nilDereference
  | negativeWaitGroup
  | indexOutOfRange
  | interfaceConversion
  | fatal
  deriving DecidableEq, Repr

deriving instance DecidableEq for Except

/-- ParseRedirectInfo parse slot redirect information from MOVED and ASK Error. -/
def ParseRedirectInfo (msg : GoString) : Except Abort (Int × GoString) :=
  match Fields msg with
  | [_, p1, p2] =>
    match Atoi p1 with
    | none => .error .fatal
    | some slot => .ok (slot, p2)
  | _ => .error .fatal


/-! ## Data model -/

/-- A pointer field that is either nil or points at the session's own object
(`s.reqWg` for `wg`, `s.backQ` for `backQ`). -/
inductive Ptr
  | nil
  | session
  deriving DecidableEq, Repr

/-- A parsed RESP command: the command name and its arguments. -/
structure Command where
  Args : List GoString
  deriving DecidableEq, Repr

/-- The number of bytes of a text in UTF-8. -/
def byteLen (s : GoString) : Nat := (s.map Char.utf8Size).sum

/-- The end of a RESP line. -/
def CRLF : GoString := ['\r', '\n']

/-- The RESP bulk string of one argument. -/
def bulk (a : GoString) : GoString := '$' :: decimal (byteLen a) ++ CRLF ++ a ++ CRLF

/-- The method `cmd.Format()`: the RESP multi-bulk encoding of the command. -/
def Command.Format (c : Command) : GoString :=
  '*' :: decimal c.Args.length ++ CRLF ++ (c.Args.map bulk).flatten

/-- The function `resp.NewCommand`: the encoded command made of the given words. -/
def NewCommand (args : List GoString) : GoString := Command.Format ⟨args⟩

/-- The raw bytes of `resp.NewObjectFromData(&resp.Data{T: resp.T_Error, String: msg})`. -/
def errorObject (msg : GoString) : GoString := '-' :: msg ++ CRLF

/-- The prefix of a MOVED error. -/
def MOVED : GoString := "-MOVED".toList

/-- The prefix of an ASK error. -/
def ASK : GoString := "-ASK".toList

/-- The inline command sent before an ASK-redirected request. -/
def ASK_CMD_BYTES : GoString := "+ASKING\r\n".toList

/-- The text of the error that answers a blacklisted command. -/
def BLACK_CMD_ERR : GoString := "unsupported command".toList

/-- The tag `resp.T_Error`, which is also `resp.ERROR_PREFIX`. -/
def T_Error : Char := '-'

/-- The function `bytes.HasPrefix`. -/
def HasPrefix : GoString → GoString → Bool
  | _, [] => true
  | [], _ :: _ => false
  | a :: as, p :: ps => a == p && HasPrefix as ps

/-- One in-flight command. A field left out of the Go literal is nil or zero. -/
structure PipelineRequest where
  cmd : Option Command := none
  slot : Int := 0
  seq : Int := 0
  backQ : Ptr := .nil
  wg : Ptr := .nil
  deriving DecidableEq, Repr

/-- One completed unit: `rsp` is the object by its `Raw()` bytes and `err` the
error by its `Error()` text, `none` being nil in both. -/
structure PipelineResponse where
  rsp : Option GoString := none
  ctx : PipelineRequest
  err : Option GoString := none
  deriving DecidableEq, Repr

/-- Every interaction of the session or of the pool with a collaborator. -/
inductive Event
  | wgAdd
  | wgDone
  | schedule (req : PipelineRequest)
  | triggerReloadSlots
  | updateSlotInfo (start stop : Int) (master : GoString)
  | getConn (server : GoString)
  | connWrite (buf : GoString)
  | connRead
  | markUnusable
  | connClose
  | clientWrite (buf : GoString)
  | clientClose
  deriving DecidableEq, Repr

/-- The outcome of every I/O operation, by the clock at which it is issued:
`fail k` is its error (`none` when it succeeds) and `reply k` the RESP reply
that a successful read delivers. -/
structure World where
  fail : Nat → Option GoString
  reply : Nat → GoString

/-- The outside of the session: the clock of I/O operations and the log. -/
structure Net where
  clock : Nat := 0
  log : List Event := []
  deriving DecidableEq, Repr

/-- One I/O operation: it is logged, the clock advances, the oracle decides. -/
def Net.perform (w : World) (n : Net) (ev : Event) : Net × Option GoString :=
  ({ clock := n.clock + 1, log := n.log ++ [ev] }, w.fail n.clock)

/-- A call that cannot fail for the caller: it is only logged. -/
def Net.emit (n : Net) (ev : Event) : Net := { n with log := n.log ++ [ev] }

/-! ## Connection pool (`connpool.go`) -/

/-- The pool configuration. The map of pools and its mutex belong to `GetConn`, which
the session sees as one I/O operation (`Event.getConn`). -/
structure ConnPool where
  maxIdle : Int
  connTimeout : Int
  sendReadOnly : Bool
  deriving DecidableEq, Repr

/-- The deferred function of `postConnect`: it runs after the results are set. -/
def postConnectDeferred (n : Net) (err : Option GoString) : Net :=
  if err.isSome then n.emit .connClose else n

/-- The method `ConnPool.postConnect`. The connection is `none` when nil, else its
identifier. The results are unnamed, so the value returned for `conn` is the one
evaluated by `return`, before the deferred function runs. -/
def ConnPool.postConnect (cp : ConnPool) (w : World) (n : Net) (conn : Option Nat)
    (err : Option GoString) : Except Abort (Net × Option Nat × Option GoString) :=
  if err.isSome || !cp.sendReadOnly then .ok (n, conn, err)
  else
    match conn with
    | none => .error .nilDereference
    | some c =>
      let (n1, err) := n.perform w (.connWrite (NewCommand ["READONLY".toList]))
      if err.isSome then .ok (postConnectDeferred n1 err, some c, err)
      else
        let (n2, err) := n1.perform w .connRead
        if err.isSome then .ok (postConnectDeferred n2 err, some c, err)
        else
          let buf := w.reply n1.clock
          let err : Option GoString :=
            match buf with
            | b :: _ => if b = T_Error then some "post connect error: READONLY resp is not OK".toList else none
            | [] => none
          .ok (postConnectDeferred n2 err, some c, err)

/-! ## Redirection handler (`session.go`) -/

/-- The packages that declare a type `PoolConn`: `github.com/fatih/pool` and
`gopkg.in/fatih/pool.v2`. They are two packages, so their `PoolConn` are two types. -/
inductive PoolPkg
  | fatihPool
  | fatihPoolV2
  deriving DecidableEq, Repr

/-- The package of the pools that `ConnPool.GetConn` draws its connections from:
`connpool.go` imports `gopkg.in/fatih/pool.v2`. -/
def connPoolPkg : PoolPkg := .fatihPoolV2

/-- The package whose `PoolConn` the deferred function of `redirect` asserts:
`session.go` imports `github.com/fatih/pool`. -/
def sessionPoolPkg : PoolPkg := .fatihPool

/-- The deferred function of `redirect`. With an error it first evaluates the type
assertion `conn.(*pool.PoolConn)`, which panics when the connection is not of the
asserted type, before `MarkUnusable` and `Close`; without error it only closes. -/
def redirectDeferred (n : Net) (err : Option GoString) : Except Abort Net :=
  if err.isSome then
    if connPoolPkg = sessionPoolPkg then .ok ((n.emit .markUnusable).emit .connClose)
    else .error .interfaceConversion
  else .ok (n.emit .connClose)

/-- A return of `redirect` after the pool has yielded a connection: the deferred function
runs, then the caller sees `plRsp`. -/
def redirectReturn (n : Net) (err : Option GoString) (plRsp : PipelineResponse) :
    Except Abort (Net × PipelineResponse) :=
  match redirectDeferred n err with
  | .error a => .error a
  | .ok n => .ok (n, plRsp)

/-- The last step of `redirect`: read the reply of the command into `plRsp`. -/
def redirectReadReply (w : World) (n : Net) (plRsp : PipelineResponse) :
    Except Abort (Net × PipelineResponse) :=
  let (n1, err) := n.perform w .connRead
  let plRsp :=
    if err.isSome then { plRsp with err := err } else { plRsp with rsp := some (w.reply n.clock) }
  redirectReturn n1 err plRsp

/-- The steps of `redirect` from the write of the command on. A request without command
stops the process in `cmd.Format()`. -/
def redirectSendCmd (w : World) (n : Net) (plRsp : PipelineResponse) (ask : Bool) :
    Except Abort (Net × PipelineResponse) :=
  match plRsp.ctx.cmd with
  | none => .error .nilDereference
  | some cmd =>
    let (n1, err) := n.perform w (.connWrite cmd.Format)
    if err.isSome then redirectReturn n1 err { plRsp with err := err }
    else if ask then
      let (n2, err) := n1.perform w .connRead
      if err.isSome then redirectReturn n2 err { plRsp with err := err }
      else redirectReadReply w n2 plRsp
    else redirectReadReply w n1 plRsp

/-- redirect send request to backend again to new server told by redis cluster. -/
def redirect (w : World) (n : Net) (server : GoString) (plRsp : PipelineResponse) (ask : Bool) :
    Except Abort (Net × PipelineResponse) :=
  let plRsp := { plRsp with err := none }
  let (n0, err) := n.perform w (.getConn server)
  if err.isSome then .ok (n0, { plRsp with err := err })
  else if ask then
    let (n1, err) := n0.perform w (.connWrite ASK_CMD_BYTES)
    if err.isSome then redirectReturn n1 err { plRsp with err := err }
    else redirectSendCmd w n1 plRsp ask
  else redirectSendCmd w n0 plRsp ask


/-! ## Session (`session.go`) -/

/-- The value of an `int64` after an arithmetic step: two's complement wrap-around. -/
def wrapInt64 (x : Int) : Int := (x + 2 ^ 63) % 2 ^ 64 - 2 ^ 63

/-- Modelled from the spec: the type `PipelineResponseHeap` is declared outside
`session.go`; the spec gives it as a min-heap over PipelineResponse by `ctx.seq`.
It is kept as the list of its elements in increasing `seq`: `heapPush` is
`heap.Push`, the head is `Top()` and dropping the head is `heap.Pop`. -/
def heapPush (x : PipelineResponse) : List PipelineResponse → List PipelineResponse
  | [] => [x]
  | y :: ys => if x.ctx.seq ≤ y.ctx.seq then x :: y :: ys else y :: heapPush x ys

/-- The per-client state. `reqWg` is the counter of the wait group, `backQ` the
responses that the reader itself has sent on the channel, `net` the outside. The client
socket with its reader, the dispatcher and the multi-operator are collaborators: their
calls are in the log or in `Classifier`; `closeSignal` only synchronises the two loops. -/
structure Session where
  reqSeq : Int := 0
  rspSeq : Int := 0
  backQ : List PipelineResponse := []
  closed : Bool := false
  reqWg : Nat := 0
  rspHeap : List PipelineResponse := []
  connPool : ConnPool := ⟨0, 0, false⟩
  net : Net := {}
  deriving DecidableEq, Repr

/-- The method `Session.Close`. -/
def Session.Close (s : Session) : Session :=
  if !s.closed then { s with closed := true, net := s.net.emit .clientClose } else s

/-- The method `Session.getNextReqSeq`. -/
def Session.getNextReqSeq (s : Session) : Int × Session :=
  (s.reqSeq, { s with reqSeq := wrapInt64 (s.reqSeq + 1) })

/-- The method `Session.writeResp`; a nil `rsp` cannot give its `Raw()` bytes. -/
def Session.writeResp (w : World) (s : Session) (plRsp : PipelineResponse) :
    Except Abort (Session × Option GoString) :=
  match plRsp.rsp with
  | none => .error .nilDereference
  | some buf =>
    let (n, err) := s.net.perform w (.clientWrite buf)
    .ok ({ s with net := n }, err)

/-- The call `wg.Done()` of `handleResp` on the wait group of the request. -/
def wgDone (s : Session) (wg : Ptr) : Except Abort Session :=
  match wg with
  | .nil => .error .nilDereference
  | .session =>
    match s.reqWg with
    | 0 => .error .negativeWaitGroup
    | k + 1 => .ok { s with reqWg := k, net := s.net.emit .wgDone }

/-- The branch of `handleResp` for a response without error: MOVED and ASK redirection. -/
def handleRedirection (w : World) (s : Session) (plRsp : PipelineResponse) :
    Except Abort (Session × PipelineResponse) :=
  match plRsp.rsp with
  | none => .error .nilDereference
  | some raw =>
    match raw with
    | [] => .error .indexOutOfRange
    | r0 :: _ =>
      if r0 = T_Error then
        if HasPrefix raw MOVED then
          match ParseRedirectInfo raw with
          | .error a => .error a
          | .ok (slot, server) =>
            let n := s.net.emit (.updateSlotInfo slot slot server)
            match redirect w n server plRsp false with
            | .error a => .error a
            | .ok (n, plRsp) => .ok ({ s with net := n }, plRsp)
        else if HasPrefix raw ASK then
          match ParseRedirectInfo raw with
          | .error a => .error a
          | .ok (_, server) =>
            match redirect w s.net server plRsp true with
            | .error a => .error a
            | .ok (n, plRsp) => .ok ({ s with net := n }, plRsp)
        else .ok (s, plRsp)
      else .ok (s, plRsp)

/-- handleResp handles MOVED and ASK redirection and call write response.
The result is the session and the error returned (`none` for nil). -/
def handleResp (w : World) (s : Session) (plRsp : PipelineResponse) :
    Except Abort (Session × Option GoString) :=
  if plRsp.ctx.seq ≠ s.rspSeq then .error .impossible
  else
    match wgDone s plRsp.ctx.wg with
    | .error a => .error a
    | .ok s =>
      let s := { s with rspSeq := wrapInt64 (s.rspSeq + 1) }
      let step : Except Abort (Session × PipelineResponse) :=
        match plRsp.err with
        | some e =>
          .ok ({ s with net := s.net.emit .triggerReloadSlots },
               { plRsp with rsp := some (errorObject e) })
        | none => handleRedirection w s plRsp
      match step with
      | .error a => .error a
      | .ok (s, plRsp) =>
        if plRsp.err.isSome then .ok (s, plRsp.err)
        else if !s.closed then
          match s.writeResp w plRsp with
          | .error a => .error a
          | .ok (s, err) => if err.isSome then .ok (s, err) else .ok (s, none)
        else .ok (s, none)

/-- The loop of `handleRespPipeline` over the heap: while the top carries the
expected sequence number it is popped and handled. `handleResp` leaves the heap
alone, so the heap is threaded through the loop and stored back when it ends. -/
def drainHeap (w : World) : List PipelineResponse → Session → Except Abort (Session × Option GoString)
  | [], s => .ok ({ s with rspHeap := [] }, none)
  | rsp :: rest, s =>
    if rsp.ctx.seq ≠ s.rspSeq then .ok ({ s with rspHeap := rsp :: rest }, none)
    else
      match handleResp w s rsp with
      | .error a => .error a
      | .ok (s, err) =>
        if err.isSome then .ok ({ s with rspHeap := rest }, err)
        else drainHeap w rest s

/-- handleRespPipeline handles the response if its sequence number is equal to session's
response sequence number, otherwise, put it to a heap to keep the response order is same
to request order. -/
def handleRespPipeline (w : World) (s : Session) (plRsp : PipelineResponse) :
    Except Abort (Session × Option GoString) :=
  if plRsp.ctx.seq ≠ s.rspSeq then .ok ({ s with rspHeap := heapPush plRsp s.rspHeap }, none)
  else
    match handleResp w s plRsp with
    | .error a => .error a
    | .ok (s, err) =>
      if err.isSome then .ok (s, err)
      else drainHeap w s.rspHeap s

/-- The body of `WritingLoop` over the responses received from `backQ`, in the
order of their arrival: after an error the session is closed and the loop goes on. -/
def feed (w : World) : List PipelineResponse → Session → Except Abort Session
  | [], s => .ok s
  | rsp :: rest, s =>
    match handleRespPipeline w s rsp with
    | .error a => .error a
    | .ok (s, err) => feed w rest (if err.isSome then s.Close else s)

/-- WritingLoop consumes backQ and send response to client. It close the connection to
notify reader on error and continue loop until the reader has exited: `arrivals` is
what `backQ` delivers before the reader closes it. -/
def WritingLoop (w : World) (s : Session) (arrivals : List PipelineResponse) : Except Abort Session :=
  match feed w arrivals s with
  | .error a => .error a
  | .ok s => .ok s.Close

/-- The collaborators of `ReadingLoop` that are declared outside `session.go`. -/
structure Classifier where
  ToUpper : GoString → GoString
  IsBlackListCmd : Command → Bool
  IsMultiOpCmd : Command → Bool × Int
  /-- The raw bytes of the reply built by the MultiOperator, or its error text. -/
  handleMultiOp : Command → Int → Except GoString GoString
  Key2Slot : GoString → Int

/-- The method `cmd.Value(1)`: the first key, empty when there is none. -/
def Command.Value (c : Command) (i : Nat) : GoString := c.Args.getD i []

/-- The body of the loop of `ReadingLoop` for one command read from the client
(the sampled access log apart): it is answered locally on `backQ` or scheduled. -/
def readCommand (k : Classifier) (s : Session) (cmd : Command) : Except Abort Session :=
  match cmd.Args with
  | [] => .error .indexOutOfRange
  | name :: args =>
    let cmd : Command := ⟨k.ToUpper name :: args⟩
    if k.IsBlackListCmd cmd then
      let (seq, s) := s.getNextReqSeq
      let plReq : PipelineRequest := { seq := seq }
      let plRsp : PipelineResponse := { rsp := some (errorObject BLACK_CMD_ERR), ctx := plReq }
      .ok { s with backQ := s.backQ ++ [plRsp] }
    else if (k.IsMultiOpCmd cmd).1 && decide ((k.IsMultiOpCmd cmd).2 > 1) then
      let (seq, s) := s.getNextReqSeq
      let plReq : PipelineRequest := { seq := seq }
      let plRsp : PipelineResponse :=
        match k.handleMultiOp cmd (k.IsMultiOpCmd cmd).2 with
        | .error e => { rsp := some (errorObject e), ctx := plReq }
        | .ok raw => { rsp := some raw, ctx := plReq }
      .ok { s with backQ := s.backQ ++ [plRsp] }
    else
      let key := cmd.Value 1
      let slot := k.Key2Slot key
      let (seq, s) := s.getNextReqSeq
      let plReq : PipelineRequest :=
        { cmd := some cmd, slot := slot, seq := seq, backQ := .session, wg := .session }
      .ok { s with reqWg := s.reqWg + 1, net := (s.net.emit .wgAdd).emit (.schedule plReq) }

/-- The loop of `ReadingLoop` over the commands read before the first read error. The
waits on `reqWg` and `closeSignal` and the close of `backQ` that follow the loop are
synchronisation between the two loops. -/
def ReadingLoop (k : Classifier) : List Command → Session → Except Abort Session
  | [], s => .ok s
  | cmd :: rest, s =>
    match readCommand k s cmd with
    | .error a => .error a
    | .ok s => ReadingLoop k rest s

/-- The text of a redirect error: the kind, the slot in decimal and the server. -/
def redirectText (kind : GoString) (n : Nat) (server : GoString) : GoString :=
  kind ++ ' ' :: decimal n ++ ' ' :: server

/-- The events of the backend connection that are I/O: its writes and its reads. -/
def Event.isTransfer : Event → Bool
  | .connWrite _ => true
  | .connRead => true
  | _ => false

/-- The writes and reads on the backend connection, in the order of the log. -/
def connOps (log : List Event) : List Event := log.filter Event.isTransfer

/-- The calls that route a request: the slot table updates and the pool requests. -/
def Event.isRouting : Event → Bool
  | .updateSlotInfo _ _ _ => true
  | .getConn _ => true
  | _ => false

/-- The routing calls of a log, in order. -/
def routing (log : List Event) : List Event := log.filter Event.isRouting

/-- The number of times `+ASKING` has been written to a backend connection. -/
def askings (log : List Event) : Nat := log.count (Event.connWrite ASK_CMD_BYTES)

/-- No write and no read fails on the connection that the pool yields at clock `c` to a
redirect with the given `ask`: two operations follow GetConn without ASKING, four with. -/
def ConnHealthy (w : World) (c : Nat) (ask : Bool) : Prop :=
  w.fail c = none → ∀ k, 1 ≤ k → k ≤ (if ask then 4 else 2) → w.fail (c + k) = none

/-- A world in which only the second I/O operation fails: the pool yields a connection
and the first write on it fails. -/
def resetWorld : World :=
  ⟨fun k => if k = 1 then some "connection reset".toList else none, fun _ => "+OK\r\n".toList⟩

/-- A world in which only the third I/O operation fails: after GetConn and a write, the
read fails. -/
def timeoutWorld : World :=
  ⟨fun k => if k = 2 then some "i/o timeout".toList else none, fun _ => "+OK\r\n".toList⟩

/-- The response is handled as a MOVED redirect: `handleResp` returns, and the routing
calls it adds to the log are one UpdateSlotInfo for the single slot followed by one
pool request for the server, with no `+ASKING` written. -/
def MovedHandled (w : World) (s : Session) (plRsp : PipelineResponse) (slot : Int)
    (server : GoString) : Prop :=
  ∃ s' err, handleResp w s plRsp = .ok (s', err) ∧
    routing s'.net.log = routing s.net.log ++
      [Event.updateSlotInfo slot slot server, Event.getConn server] ∧
    askings s'.net.log = askings s.net.log

/-- The response is handled as an ASK redirect: `handleResp` returns, the only routing
call it adds to the log is one pool request for the server, and `+ASKING` is written
once when the pool yields a connection. -/
def AskHandled (w : World) (s : Session) (plRsp : PipelineResponse) (server : GoString) : Prop :=
  ∃ s' err, handleResp w s plRsp = .ok (s', err) ∧
    routing s'.net.log = routing s.net.log ++ [Event.getConn server] ∧
    askings s'.net.log = askings s.net.log + (if w.fail s.net.clock = none then 1 else 0)

/-- The response is not redirected: `handleResp` returns and adds no routing call. -/
def NotRedirected (w : World) (s : Session) (plRsp : PipelineResponse) : Prop :=
  ∃ s' err, handleResp w s plRsp = .ok (s', err) ∧
    routing s'.net.log = routing s.net.log ∧ askings s'.net.log = askings s.net.log

/-- A world in which no I/O operation fails and every read delivers `+OK`. -/
def okWorld : World := ⟨fun _ => none, fun _ => "+OK\r\n".toList⟩

/-- The command `GET x`. -/
def getX : Command := ⟨["GET".toList, "x".toList]⟩

/-- The response that the Dispatcher publishes for `GET x` with the given `seq`:
the request is the one `ReadingLoop` schedules, `raw` the bytes of the backend reply. -/
def backendReply (seq : Int) (raw : GoString) : PipelineResponse :=
  { rsp := some raw, ctx := { cmd := some getX, seq := seq, backQ := .session, wg := .session } }

/-- A classifier that rejects SUBSCRIBE and knows no multi-key command. -/
def subscribeOnly : Classifier where
  ToUpper := fun t => t.map Char.toUpper
  IsBlackListCmd := fun c => c.Args.head? == some "SUBSCRIBE".toList
  IsMultiOpCmd := fun _ => (false, 0)
  handleMultiOp := fun _ _ => .ok []
  Key2Slot := fun _ => 0

/-- The response that `ReadingLoop` builds for a blacklisted command. -/
def localReply (seq : Int) : PipelineResponse :=
  { rsp := some (errorObject BLACK_CMD_ERR), ctx := { seq := seq } }

/-- The response of a request whose backend I/O failed with the given error. -/
def backendError (seq : Int) (e : GoString) : PipelineResponse :=
  { rsp := none, ctx := { cmd := some getX, seq := seq, backQ := .session, wg := .session },
    err := some e }

/-- A world in which no I/O operation fails and the backend refuses READONLY. -/
def refusingWorld : World := ⟨fun _ => none, fun _ => "-READONLY not supported\r\n".toList⟩

/-- The buffers written to the client, in order. -/
def clientWrites (log : List Event) : List GoString :=
  log.filterMap fun e => match e with
    | .clientWrite buf => some buf
    | _ => none

/-- A world in which the first I/O operation fails and the others succeed. -/
def brokenPipeWorld : World :=
  ⟨fun k => if k = 0 then some "broken pipe".toList else none, fun _ => "+OK\r\n".toList⟩

/-- The responses of the list carry the sequence numbers k, k+1, ... in this order. -/
def Sequenced : Nat → List PipelineResponse → Prop
  | _, [] => True
  | k, r :: rest => r.ctx.seq = (k : Int) ∧ Sequenced (k + 1) rest

/-- A response that the Dispatcher publishes for a scheduled request and that needs no
redirection: no error, the wait group of the session, a non-empty reply that begins
neither with `-MOVED` nor with `-ASK`. -/
def Plain (r : PipelineResponse) : Prop :=
  r.err = none ∧ r.ctx.wg = .session ∧
    ∃ raw, r.rsp = some raw ∧ raw ≠ [] ∧ HasPrefix raw MOVED = false ∧ HasPrefix raw ASK = false

/-- What the handling of a plain response adds to the log. -/
def written (r : PipelineResponse) : List Event := [.wgDone, .clientWrite (r.rsp.getD [])]

/-- The session `s0` after the responses `done` went to the client in this order, with
the given reorder heap. -/
def advance (s0 : Session) (done heap : List PipelineResponse) : Session :=
  { s0 with rspSeq := (done.length : Int), rspHeap := heap, reqWg := s0.reqWg - done.length,
            net := ⟨s0.net.clock + done.length, s0.net.log ++ (done.map written).flatten⟩ }

/-- The responses of `l` that have arrived. -/
def arrivedOf (A l : List PipelineResponse) : List PipelineResponse :=
  l.filter (fun x => decide (x ∈ A))

/-! ## Lemmas on text -/

theorem fieldsAux_word (w : List Char) (hw : ∀ c ∈ w, isSpace c = false) (rest cur : List Char) :
    fieldsAux (w ++ rest) cur = fieldsAux rest (w.reverse ++ cur) := by
  induction w generalizing cur with
  | nil => simp
  | cons c cs ih =>
    have hc : isSpace c = false := hw c (List.mem_cons_self _ _)
    have hcs : ∀ d ∈ cs, isSpace d = false := fun d hd => hw d (List.mem_cons_of_mem _ hd)
    simp [fieldsAux, hc, ih hcs]

theorem fieldsAux_space (c : Char) (hc : isSpace c = true) (rest cur : List Char)
    (hcur : cur ≠ []) : fieldsAux (c :: rest) cur = cur.reverse :: fieldsAux rest [] := by
  cases cur with
  | nil => exact absurd rfl hcur
  | cons a as => simp [fieldsAux, hc]

theorem fieldsAux_crlf (cur : List Char) (hcur : cur ≠ []) (crlf : Bool) :
    fieldsAux (if crlf then CRLF else []) cur = [cur.reverse] := by
  cases cur with
  | nil => exact absurd rfl hcur
  | cons a as => cases crlf <;> simp [fieldsAux, CRLF, isSpace]

/-- Three words separated by single spaces, with or without the line end, are the three fields. -/
theorem Fields_three (a b c : List Char) (ha : ∀ x ∈ a, isSpace x = false)
    (hb : ∀ x ∈ b, isSpace x = false) (hc : ∀ x ∈ c, isSpace x = false)
    (ha0 : a ≠ []) (hb0 : b ≠ []) (hc0 : c ≠ []) (crlf : Bool) :
    Fields (a ++ ' ' :: b ++ ' ' :: c ++ (if crlf then CRLF else [])) = [a, b, c] := by
  have hsp : isSpace ' ' = true := by decide
  unfold Fields
  rw [show a ++ ' ' :: b ++ ' ' :: c ++ (if crlf then CRLF else [])
      = a ++ (' ' :: (b ++ (' ' :: (c ++ (if crlf then CRLF else []))))) by simp]
  rw [fieldsAux_word a ha, fieldsAux_space ' ' hsp _ _ (by simpa using ha0),
    fieldsAux_word b hb, fieldsAux_space ' ' hsp _ _ (by simpa using hb0),
    fieldsAux_word c hc, fieldsAux_crlf _ (by simpa using hc0)]
  simp

theorem parseDigits_append (xs ys : List Char) (acc : Nat) :
    parseDigits (xs ++ ys) acc = (parseDigits xs acc).bind (parseDigits ys) := by
  induction xs generalizing acc with
  | nil => simp [parseDigits]
  | cons c cs ih =>
    simp only [List.cons_append, parseDigits]
    cases digitVal c with
    | none => simp
    | some d => simpa using ih _

theorem digitVal_digitChar (d : Nat) (hd : d < 10) : digitVal (Nat.digitChar d) = some d := by
  interval_cases d <;> decide

theorem toDigitsCore_append (fuel n : Nat) (ds : List Char) :
    Nat.toDigitsCore 10 fuel n ds = Nat.toDigitsCore 10 fuel n [] ++ ds := by
  induction fuel generalizing n ds with
  | zero => simp [Nat.toDigitsCore]
  | succ f ih =>
    simp only [Nat.toDigitsCore]
    split
    · simp
    · rw [ih (n / 10) (Nat.digitChar (n % 10) :: ds), ih (n / 10) [Nat.digitChar (n % 10)]]
      simp

theorem parseDigits_toDigitsCore (fuel n : Nat) (h : n < fuel) :
    parseDigits (Nat.toDigitsCore 10 fuel n []) 0 = some n := by
  induction fuel generalizing n with
  | zero => omega
  | succ f ih =>
    simp only [Nat.toDigitsCore]
    have hmod : n % 10 < 10 := Nat.mod_lt _ (by decide)
    split
    · rename_i h0
      have hn : n % 10 = n := by omega
      have hd := digitVal_digitChar _ hmod
      rw [hn] at hd
      simp [parseDigits, hn, hd]
    · rename_i h0
      rw [toDigitsCore_append, parseDigits_append, ih (n / 10) (by omega)]
      simp only [Option.some_bind, parseDigits, digitVal_digitChar _ hmod]
      congr 1
      omega

theorem parseDigits_decimal (n : Nat) : parseDigits (decimal n) 0 = some n :=
  parseDigits_toDigitsCore (n + 1) n (Nat.lt_succ_self n)

theorem parseDigits_digits (xs : List Char) (acc v : Nat) (h : parseDigits xs acc = some v) :
    ∀ c ∈ xs, (digitVal c).isSome = true := by
  induction xs generalizing acc with
  | nil => simp
  | cons c cs ih =>
    intro x hx
    simp only [parseDigits] at h
    cases hd : digitVal c with
    | none => simp [hd] at h
    | some d =>
      simp only [hd] at h
      rcases List.mem_cons.mp hx with rfl | hx
      · simp [hd]
      · exact ih _ h x hx

theorem digit_not_space (c : Char) (h : (digitVal c).isSome = true) : isSpace c = false := by
  unfold digitVal at h
  split at h
  · rename_i hr
    simp only [isSpace, Bool.or_eq_false_iff, Bool.and_eq_false_iff, decide_eq_false_iff_not,
      beq_eq_false_iff_ne, ne_eq]
    omega
  · simp at h

theorem decimal_ne_nil (n : Nat) : decimal n ≠ [] := by
  intro h
  have := parseDigits_decimal n
  unfold decimal Nat.toDigits at *
  simp only [Nat.toDigitsCore] at h
  split at h
  · simp at h
  · rw [toDigitsCore_append] at h
    simp at h

theorem decimal_digits (n : Nat) : ∀ c ∈ decimal n, (digitVal c).isSome = true :=
  parseDigits_digits _ _ _ (parseDigits_decimal n)

/-- The decimal text of a number that fits `int` is read back by `strconv.Atoi`. -/
theorem Atoi_decimal (n : Nat) (hn : n < 2 ^ 63) : Atoi (decimal n) = some (n : Int) := by
  have hne := decimal_ne_nil n
  have hdig := decimal_digits n
  have hval := parseDigits_decimal n
  cases hdec : decimal n with
  | nil => exact absurd hdec hne
  | cons c cs =>
    rw [hdec] at hdig hval
    have hc : (digitVal c).isSome = true := hdig c (List.mem_cons_self _ _)
    have hplus : c ≠ '+' := by
      intro h; rw [h] at hc; exact absurd hc (by decide)
    have hminus : c ≠ '-' := by
      intro h; rw [h] at hc; exact absurd hc (by decide)
    have hn' : n < 9223372036854775808 := hn
    simp [Atoi, hplus, hminus, atoiMagnitude, hval, intSize, hn']

theorem kind_no_space : (∀ x ∈ MOVED, isSpace x = false) ∧ (∀ x ∈ ASK, isSpace x = false) := by
  decide

/-- The redirect text of a slot and a server is read back as that slot and that server. -/
theorem parse_redirectText (n : Nat) (server : GoString) (crlf : Bool)
    (hn : n < 2 ^ 63) (hne : server ≠ []) (hsp : ∀ c ∈ server, isSpace c = false) :
    ParseRedirectInfo (redirectText MOVED n server ++ (if crlf then CRLF else []))
      = .ok ((n : Int), server) ∧
    ParseRedirectInfo (redirectText ASK n server ++ (if crlf then CRLF else []))
      = .ok ((n : Int), server) := by
  have hd : ∀ x ∈ decimal n, isSpace x = false :=
    fun x hx => digit_not_space x (decimal_digits n x hx)
  constructor
  · unfold ParseRedirectInfo redirectText
    rw [Fields_three MOVED (decimal n) server kind_no_space.1 hd hsp (by decide)
      (decimal_ne_nil n) hne crlf]
    simp [Atoi_decimal n hn]
  · unfold ParseRedirectInfo redirectText
    rw [Fields_three ASK (decimal n) server kind_no_space.2 hd hsp (by decide)
      (decimal_ne_nil n) hne crlf]
    simp [Atoi_decimal n hn]

/-! ## Claims -/

/-- C8. Round trip of the redirect message: for every slot number n >= 0 (a slot is an
`int`; the cluster slots lie below 16384, the statement covers every n below 2^63) and
every non-empty server text without white space, ParseRedirectInfo applied to
`-MOVED <n> <server>` or to `-ASK <n> <server>`, with or without the trailing line end,
returns exactly (n, server). -/
theorem ParseRedirectInfo_roundtrip (n : Nat) (server : GoString) (crlf : Bool)
    (hn : n < 2 ^ 63) (hne : server ≠ []) (hsp : ∀ c ∈ server, isSpace c = false) :
    ParseRedirectInfo (redirectText MOVED n server ++ (if crlf then CRLF else []))
      = .ok ((n : Int), server) ∧
    ParseRedirectInfo (redirectText ASK n server ++ (if crlf then CRLF else []))
      = .ok ((n : Int), server) :=
  parse_redirectText n server crlf hn hne hsp

/-- Witness of C8 at slot 5823 and server 10.0.0.2:6379, with the line end. -/
theorem ParseRedirectInfo_roundtrip_witness :
    ParseRedirectInfo (redirectText MOVED 5823 "10.0.0.2:6379".toList ++ CRLF)
      = .ok (5823, "10.0.0.2:6379".toList) ∧
    ParseRedirectInfo (redirectText ASK 5823 "10.0.0.2:6379".toList ++ CRLF)
      = .ok (5823, "10.0.0.2:6379".toList) :=
  ParseRedirectInfo_roundtrip 5823 "10.0.0.2:6379".toList true (by decide) (by decide) (by decide)

/-- C9, as the code has it. ParseRedirectInfo aborts for every message that does not
split on white space into exactly three fields, and for every message whose second field
`strconv.Atoi` does not read: a text that is not an optional sign followed by decimal
digits, or whose value does not fit `int`. For every other message it returns the value
of the second field as the slot, whether or not it is a slot of the cluster, and the
third field verbatim as the server. -/
theorem ParseRedirectInfo_cases (msg : GoString) :
    ((Fields msg).length ≠ 3 → ParseRedirectInfo msg = .error .fatal) ∧
    (∀ p0 p1 p2, Fields msg = [p0, p1, p2] → Atoi p1 = none →
      ParseRedirectInfo msg = .error .fatal) ∧
    (∀ p0 p1 p2 slot, Fields msg = [p0, p1, p2] → Atoi p1 = some slot →
      ParseRedirectInfo msg = .ok (slot, p2)) := by
  refine ⟨?_, ?_, ?_⟩
  · intro h
    unfold ParseRedirectInfo
    split
    · rename_i heq
      rw [heq] at h
      simp at h
    · rfl
  · intro p0 p1 p2 hf ha
    simp [ParseRedirectInfo, hf, ha]
  · intro p0 p1 p2 slot hf ha
    simp [ParseRedirectInfo, hf, ha]

/-- Witness of C9: `-ASK 7 h:1` has three fields, the second reads as 7. -/
theorem ParseRedirectInfo_cases_witness :
    ParseRedirectInfo "-ASK 7 h:1\r\n".toList = .ok (7, "h:1".toList) :=
  (ParseRedirectInfo_cases "-ASK 7 h:1\r\n".toList).2.2 "-ASK".toList "7".toList "h:1".toList 7
    (by decide) (by decide)

/-- The deferred function of `redirect` with an error: the assertion names the `PoolConn`
of another package than the one the connection comes from, and panics. -/
theorem redirectDeferred_error (n : Net) (e : GoString) :
    redirectDeferred n (some e) = .error .interfaceConversion := by
  simp [redirectDeferred, connPoolPkg, sessionPoolPkg]

/-- Every redirect call in which the pool yields a connection and a write or a read on it
fails stops the process in the deferred function: the connection is neither marked
unusable nor closed, and the call does not return. -/
theorem redirect_failure_panics (w : World) (n : Net) (server : GoString)
    (plRsp : PipelineResponse) (ask : Bool) (cmd : Command) (hcmd : plRsp.ctx.cmd = some cmd)
    (hconn : w.fail n.clock = none)
    (hfail : ∃ k, 1 ≤ k ∧ k ≤ (if ask then 4 else 2) ∧ (w.fail (n.clock + k)).isSome = true) :
    redirect w n server plRsp ask = .error .interfaceConversion := by
  obtain ⟨k, hk1, hk2, hk3⟩ := hfail
  cases ask
  · simp only [Bool.false_eq_true, if_false] at hk2
    cases h1 : w.fail (n.clock + 1) with
    | some e1 =>
      simp [redirect, redirectSendCmd, redirectReturn, redirectDeferred_error, Net.perform,
        hconn, hcmd, h1]
    | none =>
      have hk : k = 2 := by
        rcases (show k = 1 ∨ k = 2 by omega) with rfl | rfl
        · simp [h1] at hk3
        · rfl
      subst hk
      obtain ⟨e2, h2⟩ := Option.isSome_iff_exists.mp hk3
      simp [redirect, redirectSendCmd, redirectReadReply, redirectReturn, redirectDeferred_error,
        Net.perform, hconn, hcmd, h1, h2]
  · simp only [if_true] at hk2
    cases h1 : w.fail (n.clock + 1) with
    | some e1 =>
      simp [redirect, redirectReturn, redirectDeferred_error, Net.perform, hconn, h1]
    | none =>
      cases h2 : w.fail (n.clock + 2) with
      | some e2 =>
        simp [redirect, redirectSendCmd, redirectReturn, redirectDeferred_error, Net.perform,
          hconn, hcmd, h1, h2]
      | none =>
        cases h3 : w.fail (n.clock + 3) with
        | some e3 =>
          simp [redirect, redirectSendCmd, redirectReturn, redirectDeferred_error, Net.perform,
            hconn, hcmd, h1, h2, h3]
        | none =>
          have hk : k = 4 := by
            rcases (show k = 1 ∨ k = 2 ∨ k = 3 ∨ k = 4 by omega) with rfl | rfl | rfl | rfl
            · simp [h1] at hk3
            · simp [h2] at hk3
            · simp [h3] at hk3
            · rfl
          subst hk
          obtain ⟨e4, h4⟩ := Option.isSome_iff_exists.mp hk3
          simp [redirect, redirectSendCmd, redirectReadReply, redirectReturn,
            redirectDeferred_error, Net.perform, hconn, hcmd, h1, h2, h3, h4]

/-- The MOVED redirect without failure: GetConn, the write of the command, one read whose
reply goes to `plRsp.rsp`, then Close alone; the error carried on entry is cleared. -/
theorem redirect_moved_sequence (w : World) (n : Net) (server : GoString)
    (plRsp : PipelineResponse) (cmd : Command) (hcmd : plRsp.ctx.cmd = some cmd)
    (hio : ∀ k, k < 3 → w.fail (n.clock + k) = none) :
    redirect w n server plRsp false =
      .ok (⟨n.clock + 3, n.log ++ [Event.getConn server, Event.connWrite cmd.Format,
              Event.connRead, Event.connClose]⟩,
           { rsp := some (w.reply (n.clock + 2)), ctx := plRsp.ctx, err := none }) := by
  have h0 := hio 0 (by decide)
  have h1 := hio 1 (by decide)
  have h2 := hio 2 (by decide)
  simp only [Nat.add_zero] at h0
  simp [redirect, redirectSendCmd, redirectReadReply, redirectReturn, redirectDeferred,
    Net.perform, Net.emit, hcmd, h0, h1, h2]

/-- C7, at a failing input. The MOVED redirect of `GET x` to 10.0.0.2:6379: the pool
yields a connection and the write of the command fails, or the write goes through and
the read fails. With the error set, the deferred function asserts the `PoolConn` of
`github.com/fatih/pool` on a connection of `gopkg.in/fatih/pool.v2` and panics: the
process stops, the connection is neither marked unusable nor closed. -/
theorem redirect_failure_aborts :
    connPoolPkg ≠ sessionPoolPkg ∧
    redirect resetWorld {} "10.0.0.2:6379".toList
        (backendReply 0 "-MOVED 5823 10.0.0.2:6379\r\n".toList) false
      = .error .interfaceConversion ∧
    redirect timeoutWorld {} "10.0.0.2:6379".toList
        (backendReply 0 "-MOVED 5823 10.0.0.2:6379\r\n".toList) false
      = .error .interfaceConversion := by
  decide

/-- C6, as the code has it. For every redirect call with ask = true in which the pool
yields a connection and no I/O step fails, the operations on the backend connection are
exactly: write `+ASKING\r\n`; write `plRsp.ctx.cmd.Format()`; read one RESP reply and
discard it; read one RESP object and store it in `plRsp.rsp`; then the connection is
closed without being marked unusable. The reply to ASKING is read after the command
has been written. -/
theorem redirect_ask_sequence (w : World) (n : Net) (server : GoString)
    (plRsp : PipelineResponse) (cmd : Command) (hcmd : plRsp.ctx.cmd = some cmd)
    (hio : ∀ k, k < 5 → w.fail (n.clock + k) = none) :
    redirect w n server plRsp true =
      .ok (⟨n.clock + 5, n.log ++ [Event.getConn server, Event.connWrite ASK_CMD_BYTES,
              Event.connWrite cmd.Format, Event.connRead, Event.connRead, Event.connClose]⟩,
           { rsp := some (w.reply (n.clock + 4)), ctx := plRsp.ctx, err := none }) := by
  have h0 := hio 0 (by decide)
  have h1 := hio 1 (by decide)
  have h2 := hio 2 (by decide)
  have h3 := hio 3 (by decide)
  have h4 := hio 4 (by decide)
  simp only [Nat.add_zero] at h0
  simp [redirect, redirectSendCmd, redirectReadReply, redirectReturn, redirectDeferred,
    Net.perform, Net.emit, hcmd, h0, h1, h2, h3, h4]

/-- Witness of C6: the ASK redirect of `GET x` to 10.0.0.3:6379 in a world without failure. -/
theorem redirect_ask_sequence_witness :
    redirect okWorld {} "10.0.0.3:6379".toList
        (backendReply 0 "-ASK 5823 10.0.0.3:6379\r\n".toList) true =
      .ok (⟨5, [Event.getConn "10.0.0.3:6379".toList, Event.connWrite ASK_CMD_BYTES,
              Event.connWrite getX.Format, Event.connRead, Event.connRead, Event.connClose]⟩,
           { rsp := some "+OK\r\n".toList, ctx := (backendReply 0 []).ctx, err := none }) :=
  redirect_ask_sequence okWorld {} "10.0.0.3:6379".toList
    (backendReply 0 "-ASK 5823 10.0.0.3:6379\r\n".toList) getX rfl (fun _ _ => rfl)

/-- C6, counterexample. In the ASK redirect of `GET x` without any failure the
operations on the connection are write ASKING, write the command, read, read: the
command is written before the reply to ASKING is read, so the sequence write, read,
write, read of the claim is not the one performed. -/
theorem redirect_ask_sequence_counterexample :
    (match redirect okWorld {} "10.0.0.3:6379".toList
        (backendReply 0 "-ASK 5823 10.0.0.3:6379\r\n".toList) true with
      | .ok (n, _) => connOps n.log
      | .error _ => [])
      = [Event.connWrite ASK_CMD_BYTES, Event.connWrite getX.Format, Event.connRead,
          Event.connRead] ∧
    (match redirect okWorld {} "10.0.0.3:6379".toList
        (backendReply 0 "-ASK 5823 10.0.0.3:6379\r\n".toList) true with
      | .ok (n, _) => connOps n.log
      | .error _ => [])
      ≠ [Event.connWrite ASK_CMD_BYTES, Event.connRead, Event.connWrite getX.Format,
          Event.connRead] := by
  decide

/-- C10. With sendReadOnly = true and a dialed connection, postConnect writes the
command READONLY, reads one reply when the write went through, and returns the
connection with an error exactly when the write fails, the read fails or the reply
begins with `-`; the connection is closed exactly when an error is returned. With
sendReadOnly = false, or when the dial failed, postConnect performs no I/O and returns
its arguments unchanged. -/
theorem postConnect_spec (cp : ConnPool) (w : World) (n : Net) (conn : Option Nat)
    (c : Nat) (err : Option GoString) :
    (cp.sendReadOnly = true →
      ∃ n' e', cp.postConnect w n (some c) none = .ok (n', some c, e') ∧
        (e'.isSome = true ↔
          ((w.fail n.clock).isSome = true ∨ (w.fail (n.clock + 1)).isSome = true ∨
            (w.reply (n.clock + 1)).head? = some '-')) ∧
        n'.log = n.log ++
          (Event.connWrite (NewCommand ["READONLY".toList]) ::
            (if (w.fail n.clock).isSome then [] else [Event.connRead])) ++
          (if e'.isSome then [Event.connClose] else [])) ∧
    (cp.sendReadOnly = false ∨ err.isSome = true →
      cp.postConnect w n conn err = .ok (n, conn, err)) := by
  constructor
  · intro hro
    cases h0 : w.fail n.clock with
    | some e0 =>
      exact ⟨⟨n.clock + 1, n.log ++ [Event.connWrite (NewCommand ["READONLY".toList]),
          Event.connClose]⟩, some e0,
        by simp [ConnPool.postConnect, postConnectDeferred, Net.perform, Net.emit, hro, h0],
        by simp, by simp⟩
    | none =>
      cases h1 : w.fail (n.clock + 1) with
      | some e1 =>
        exact ⟨⟨n.clock + 2, n.log ++ [Event.connWrite (NewCommand ["READONLY".toList]),
            Event.connRead, Event.connClose]⟩, some e1,
          by simp [ConnPool.postConnect, postConnectDeferred, Net.perform, Net.emit, hro, h0, h1],
          by simp, by simp⟩
      | none =>
        cases hb : w.reply (n.clock + 1) with
        | nil =>
          exact ⟨⟨n.clock + 2, n.log ++ [Event.connWrite (NewCommand ["READONLY".toList]),
              Event.connRead]⟩, none,
            by simp [ConnPool.postConnect, postConnectDeferred, Net.perform, Net.emit, hro, h0, h1, hb],
            by simp, by simp⟩
        | cons b bs =>
          by_cases hbe : b = '-'
          · exact ⟨⟨n.clock + 2, n.log ++ [Event.connWrite (NewCommand ["READONLY".toList]),
                Event.connRead, Event.connClose]⟩,
              some "post connect error: READONLY resp is not OK".toList,
              by simp [ConnPool.postConnect, postConnectDeferred, Net.perform, Net.emit, hro, h0, h1,
                hb, hbe, T_Error],
              by simp [hbe], by simp⟩
          · exact ⟨⟨n.clock + 2, n.log ++ [Event.connWrite (NewCommand ["READONLY".toList]),
                Event.connRead]⟩, none,
              by simp [ConnPool.postConnect, postConnectDeferred, Net.perform, Net.emit, hro, h0, h1,
                hb, hbe, T_Error],
              by simp [hbe], by simp⟩
  · intro h
    rcases h with h | h
    · simp [ConnPool.postConnect, h]
    · simp [ConnPool.postConnect, h]

theorem format_ne_asking (cmd : Command) : cmd.Format ≠ ASK_CMD_BYTES := by
  simp [Command.Format, ASK_CMD_BYTES]

/-- What a redirect call leaves in the log when no write and no read fails on the
connection: one pool request, no slot table update, and one `+ASKING` exactly when ask
is set and the pool yields a connection. -/
theorem redirect_obs (w : World) (n : Net) (server : GoString) (plRsp : PipelineResponse)
    (ask : Bool) (cmd : Command) (hcmd : plRsp.ctx.cmd = some cmd)
    (hio : ConnHealthy w n.clock ask) :
    ∃ n' p', redirect w n server plRsp ask = .ok (n', p') ∧
      routing n'.log = routing n.log ++ [Event.getConn server] ∧
      askings n'.log = askings n.log + (if ask = true ∧ w.fail n.clock = none then 1 else 0) ∧
      (p'.err = none → p'.rsp.isSome = true) := by
  have hf := format_ne_asking cmd
  cases h0 : w.fail n.clock with
  | some e0 =>
    cases ask <;>
      simp [redirect, Net.perform, routing, askings, Event.isRouting, List.filter_append,
        List.count_append, List.count_cons, h0] <;>
      (refine ⟨_, _, ⟨rfl, rfl⟩, ?_⟩
       simp [Event.isRouting, List.filter_append, List.count_append, List.count_cons])
  | none =>
    cases ask
    · have h1 := hio h0 1 (by decide) (by decide)
      have h2 := hio h0 2 (by decide) (by decide)
      simp [redirect, redirectSendCmd, redirectReadReply, redirectReturn, redirectDeferred,
        Net.perform, Net.emit, routing, askings, Event.isRouting, List.filter_append,
        List.count_append, List.count_cons, hcmd, h0, h1, h2, hf]
      refine ⟨_, _, ⟨rfl, rfl⟩, ?_⟩
      simp [Event.isRouting, List.filter_append, List.count_append, List.count_cons, hf]
    · have h1 := hio h0 1 (by decide) (by decide)
      have h2 := hio h0 2 (by decide) (by decide)
      have h3 := hio h0 3 (by decide) (by decide)
      have h4 := hio h0 4 (by decide) (by decide)
      simp [redirect, redirectSendCmd, redirectReadReply, redirectReturn, redirectDeferred,
        Net.perform, Net.emit, routing, askings, Event.isRouting, List.filter_append,
        List.count_append, List.count_cons, hcmd, h0, h1, h2, h3, h4, hf]
      refine ⟨_, _, ⟨rfl, rfl⟩, ?_⟩
      simp [Event.isRouting, List.filter_append, List.count_append, List.count_cons, hf]

theorem hasPrefix_error (raw p : GoString) (h : HasPrefix raw (T_Error :: p) = true) :
    ∃ rest, raw = T_Error :: rest := by
  cases raw with
  | nil => simp [HasPrefix] at h
  | cons r0 rest =>
    simp only [HasPrefix, Bool.and_eq_true, beq_iff_eq] at h
    exact ⟨rest, by rw [h.1]⟩

/-- The handling of a reply that begins with `-MOVED`, when no write and no read fails on
the connection of the redirect: one slot table update, then one pool request. -/
theorem handleResp_moved (w : World) (s : Session) (plRsp : PipelineResponse)
    (raw : GoString) (cmd : Command) (slot : Int) (server : GoString)
    (hseq : plRsp.ctx.seq = s.rspSeq) (hwg : plRsp.ctx.wg = .session) (hcnt : 0 < s.reqWg)
    (herr : plRsp.err = none) (hraw : plRsp.rsp = some raw) (hcmd : plRsp.ctx.cmd = some cmd)
    (hpre : HasPrefix raw MOVED = true) (hparse : ParseRedirectInfo raw = .ok (slot, server))
    (hio : ConnHealthy w s.net.clock false) :
    ∃ s' err, handleResp w s plRsp = .ok (s', err) ∧
      routing s'.net.log = routing s.net.log ++
        [Event.updateSlotInfo slot slot server, Event.getConn server] ∧
      askings s'.net.log = askings s.net.log := by
  obtain ⟨rest, hrest⟩ := hasPrefix_error raw _ hpre
  obtain ⟨k, hk⟩ : ∃ k, s.reqWg = k + 1 := ⟨s.reqWg - 1, by omega⟩
  obtain ⟨n', p', hr, hrout, hask, hrsp⟩ := redirect_obs w
    ((s.net.emit .wgDone).emit (.updateSlotInfo slot slot server)) server plRsp false cmd hcmd
    hio
  have hpre' : HasPrefix (T_Error :: rest) MOVED = true := hrest ▸ hpre
  have hparse' : ParseRedirectInfo (T_Error :: rest) = .ok (slot, server) := hrest ▸ hparse
  have hraw' : plRsp.rsp = some (T_Error :: rest) := hrest ▸ hraw
  simp only [Net.emit] at hr hrout hask
  simp only [handleResp, hseq, wgDone, hwg, hk, herr, handleRedirection, hraw', hpre', hparse',
    Net.emit, hr, ne_eq, not_true_eq_false, if_false, if_true]
  cases he : p'.err with
  | some e =>
    refine ⟨_, _, rfl, ?_, ?_⟩
    · simpa [routing, Event.isRouting, List.filter_append] using hrout
    · simpa [askings, List.count_append, List.count_cons] using hask
  | none =>
    obtain ⟨b, hb⟩ := Option.isSome_iff_exists.mp (hrsp he)
    cases hc : s.closed with
    | true =>
      simp only [hc, Option.isSome_none, Bool.false_eq_true, if_false, Bool.not_true]
      refine ⟨_, _, rfl, ?_, ?_⟩
      · simpa [routing, Event.isRouting, List.filter_append] using hrout
      · simpa [askings, List.count_append, List.count_cons] using hask
    | false =>
      simp only [hc, Option.isSome_none, Bool.false_eq_true, if_false, Bool.not_false, if_true,
        Session.writeResp, hb, Net.perform]
      cases hw : w.fail n'.clock with
      | some e =>
        refine ⟨_, _, rfl, ?_, ?_⟩
        · simpa [routing, Event.isRouting, List.filter_append] using hrout
        · simpa [askings, List.count_append, List.count_cons] using hask
      | none =>
        refine ⟨_, _, rfl, ?_, ?_⟩
        · simpa [routing, Event.isRouting, List.filter_append] using hrout
        · simpa [askings, List.count_append, List.count_cons] using hask

/-- The handling of a reply that begins with `-ASK`: one pool request, no slot table
update, and `+ASKING` written once when the pool yields a connection. -/
theorem handleResp_ask (w : World) (s : Session) (plRsp : PipelineResponse)
    (raw : GoString) (cmd : Command) (slot : Int) (server : GoString)
    (hseq : plRsp.ctx.seq = s.rspSeq) (hwg : plRsp.ctx.wg = .session) (hcnt : 0 < s.reqWg)
    (herr : plRsp.err = none) (hraw : plRsp.rsp = some raw) (hcmd : plRsp.ctx.cmd = some cmd)
    (hnot : HasPrefix raw MOVED = false) (hpre : HasPrefix raw ASK = true)
    (hparse : ParseRedirectInfo raw = .ok (slot, server))
    (hio : ConnHealthy w s.net.clock true) :
    ∃ s' err, handleResp w s plRsp = .ok (s', err) ∧
      routing s'.net.log = routing s.net.log ++ [Event.getConn server] ∧
      askings s'.net.log = askings s.net.log + (if w.fail s.net.clock = none then 1 else 0) := by
  obtain ⟨rest, hrest⟩ := hasPrefix_error raw _ hpre
  obtain ⟨k, hk⟩ : ∃ k, s.reqWg = k + 1 := ⟨s.reqWg - 1, by omega⟩
  obtain ⟨n', p', hr, hrout, hask, hrsp⟩ := redirect_obs w
    (s.net.emit .wgDone) server plRsp true cmd hcmd hio
  have hnot' : HasPrefix (T_Error :: rest) MOVED = false := hrest ▸ hnot
  have hpre' : HasPrefix (T_Error :: rest) ASK = true := hrest ▸ hpre
  have hparse' : ParseRedirectInfo (T_Error :: rest) = .ok (slot, server) := hrest ▸ hparse
  have hraw' : plRsp.rsp = some (T_Error :: rest) := hrest ▸ hraw
  simp only [Net.emit, true_and] at hr hrout hask
  simp only [handleResp, hseq, wgDone, hwg, hk, herr, handleRedirection, hraw', hnot', hpre',
    hparse', Net.emit, hr, ne_eq, not_true_eq_false, if_false, if_true, Bool.false_eq_true]
  cases he : p'.err with
  | some e =>
    refine ⟨_, _, rfl, ?_, ?_⟩
    · simpa [routing, Event.isRouting, List.filter_append] using hrout
    · simpa [askings, List.count_append, List.count_cons] using hask
  | none =>
    obtain ⟨b, hb⟩ := Option.isSome_iff_exists.mp (hrsp he)
    cases hc : s.closed with
    | true =>
      simp only [hc, Option.isSome_none, Bool.false_eq_true, if_false, Bool.not_true]
      refine ⟨_, _, rfl, ?_, ?_⟩
      · simpa [routing, Event.isRouting, List.filter_append] using hrout
      · simpa [askings, List.count_append, List.count_cons] using hask
    | false =>
      simp only [hc, Option.isSome_none, Bool.false_eq_true, if_false, Bool.not_false, if_true,
        Session.writeResp, hb, Net.perform]
      cases hw : w.fail n'.clock with
      | some e =>
        refine ⟨_, _, rfl, ?_, ?_⟩
        · simpa [routing, Event.isRouting, List.filter_append] using hrout
        · simpa [askings, List.count_append, List.count_cons] using hask
      | none =>
        refine ⟨_, _, rfl, ?_, ?_⟩
        · simpa [routing, Event.isRouting, List.filter_append] using hrout
        · simpa [askings, List.count_append, List.count_cons] using hask

/-- The handling of a reply that begins neither with `-MOVED` nor with `-ASK`: the
reply is written to the client unless the session is closed, and nothing else happens. -/
theorem handleResp_plain (w : World) (s : Session) (plRsp : PipelineResponse)
    (raw : GoString) (k : Nat)
    (hseq : plRsp.ctx.seq = s.rspSeq) (hwg : plRsp.ctx.wg = .session) (hk : s.reqWg = k + 1)
    (herr : plRsp.err = none) (hraw : plRsp.rsp = some raw) (hne : raw ≠ [])
    (hmoved : HasPrefix raw MOVED = false) (hask : HasPrefix raw ASK = false) :
    handleResp w s plRsp =
      if s.closed then
        .ok ({ s with reqWg := k, rspSeq := wrapInt64 (s.rspSeq + 1),
                      net := s.net.emit .wgDone }, none)
      else
        .ok ({ s with reqWg := k, rspSeq := wrapInt64 (s.rspSeq + 1),
                      net := ⟨s.net.clock + 1, s.net.log ++ [.wgDone, .clientWrite raw]⟩ },
             w.fail s.net.clock) := by
  cases raw with
  | nil => exact absurd rfl hne
  | cons r0 rest =>
    simp only [handleResp, hseq, wgDone, hwg, hk, herr, handleRedirection, hraw, hmoved, hask,
      Net.emit, ne_eq, not_true_eq_false, if_false, Bool.false_eq_true, ite_self,
      Option.isSome_none]
    cases hc : s.closed with
    | true => simp
    | false =>
      simp only [Bool.not_false, if_true, Session.writeResp, hraw, Net.perform, Bool.false_eq_true,
        if_false]
      cases hw : w.fail s.net.clock <;> simp

theorem hasPrefix_append (p rest : GoString) : HasPrefix (p ++ rest) p = true := by
  induction p with
  | nil => cases rest <;> rfl
  | cons c cs ih => simp [HasPrefix, ih]

theorem redirectText_starts (n : Nat) (server tail : GoString) :
    HasPrefix (redirectText MOVED n server ++ tail) MOVED = true ∧
    HasPrefix (redirectText ASK n server ++ tail) MOVED = false ∧
    HasPrefix (redirectText ASK n server ++ tail) ASK = true := by
  refine ⟨?_, ?_, ?_⟩
  · simp only [redirectText, List.append_assoc]
    exact hasPrefix_append _ _
  · simp only [redirectText, List.append_assoc]
    rfl
  · simp only [redirectText, List.append_assoc]
    exact hasPrefix_append _ _

/-- C5, as the code has it. For every error-free response handled by handleResp (its
seq is rspSeq, its request carries the command and the wait group of the session, which
counts it), in a world where no write and no read fails on the connection that the pool
yields to the redirect: a payload `-MOVED <slot> <server>`, and any payload that begins
with `-MOVED` and reads as (slot, server), gives one UpdateSlotInfo with start = end = slot
and master = server, then one redirect to server without `+ASKING`; a payload
`-ASK <slot> <server>`, and any payload that begins with `-ASK` and reads as (slot, server),
gives no UpdateSlotInfo and one redirect to server with `+ASKING`. In every world, a
non-empty payload that begins with neither prefix gives neither UpdateSlotInfo nor
redirect. -/
theorem handleResp_routing (w : World) (s : Session) (plRsp : PipelineResponse)
    (raw : GoString) (cmd : Command)
    (hseq : plRsp.ctx.seq = s.rspSeq) (hwg : plRsp.ctx.wg = .session) (hcnt : 0 < s.reqWg)
    (herr : plRsp.err = none) (hraw : plRsp.rsp = some raw) (hcmd : plRsp.ctx.cmd = some cmd) :
    (∀ (n : Nat) (server : GoString) (crlf : Bool), n < 2 ^ 63 → server ≠ [] →
      (∀ c ∈ server, isSpace c = false) →
      (raw = redirectText MOVED n server ++ (if crlf then CRLF else []) →
        ConnHealthy w s.net.clock false → MovedHandled w s plRsp n server) ∧
      (raw = redirectText ASK n server ++ (if crlf then CRLF else []) →
        ConnHealthy w s.net.clock true → AskHandled w s plRsp server)) ∧
    (∀ slot server, HasPrefix raw MOVED = true → ParseRedirectInfo raw = .ok (slot, server) →
      ConnHealthy w s.net.clock false → MovedHandled w s plRsp slot server) ∧
    (∀ slot server, HasPrefix raw MOVED = false → HasPrefix raw ASK = true →
      ParseRedirectInfo raw = .ok (slot, server) → ConnHealthy w s.net.clock true →
      AskHandled w s plRsp server) ∧
    (raw ≠ [] → HasPrefix raw MOVED = false → HasPrefix raw ASK = false →
      NotRedirected w s plRsp) := by
  refine ⟨?_, ?_, ?_, ?_⟩
  · intro n server crlf hn hne hsp
    have hp := parse_redirectText n server crlf hn hne hsp
    have hpre := redirectText_starts n server (if crlf then CRLF else [])
    constructor
    · intro h hio
      exact handleResp_moved w s plRsp raw cmd n server hseq hwg hcnt herr hraw hcmd
        (h ▸ hpre.1) (h ▸ hp.1) hio
    · intro h hio
      exact handleResp_ask w s plRsp raw cmd n server hseq hwg hcnt herr hraw hcmd
        (h ▸ hpre.2.1) (h ▸ hpre.2.2) (h ▸ hp.2) hio
  · intro slot server hpre hparse hio
    exact handleResp_moved w s plRsp raw cmd slot server hseq hwg hcnt herr hraw hcmd hpre
      hparse hio
  · intro slot server hnot hpre hparse hio
    exact handleResp_ask w s plRsp raw cmd slot server hseq hwg hcnt herr hraw hcmd hnot hpre
      hparse hio
  · intro hne hmoved hask
    obtain ⟨k, hk⟩ : ∃ k, s.reqWg = k + 1 := ⟨s.reqWg - 1, by omega⟩
    have h := handleResp_plain w s plRsp raw k hseq hwg hk herr hraw hne hmoved hask
    cases hc : s.closed with
    | true =>
      rw [hc] at h
      exact ⟨_, _, h, by simp [routing, Net.emit, Event.isRouting, List.filter_append],
        by simp [askings, Net.emit, List.count_append, List.count_cons]⟩
    | false =>
      rw [hc] at h
      exact ⟨_, _, h, by simp [routing, Event.isRouting, List.filter_append],
        by simp [askings, List.count_append, List.count_cons]⟩

/-- Witness of C5: `-MOVED 5823 10.0.0.2:6379` as the reply to the first command, in a
world without failure. -/
theorem handleResp_routing_witness :
    MovedHandled okWorld { reqWg := 1 }
      (backendReply 0 "-MOVED 5823 10.0.0.2:6379\r\n".toList) 5823 "10.0.0.2:6379".toList :=
  (handleResp_routing okWorld { reqWg := 1 }
    (backendReply 0 "-MOVED 5823 10.0.0.2:6379\r\n".toList)
    "-MOVED 5823 10.0.0.2:6379\r\n".toList getX rfl rfl (by decide) rfl rfl rfl).2.1
    5823 "10.0.0.2:6379".toList (by decide) (by decide) (fun _ _ _ _ => rfl)

/-- C5, counterexample. The reply `-MOVEDX 5 h:1` is neither `-MOVED <slot> <server>` nor
`-ASK <slot> <server>`: its first field is `-MOVEDX`. It begins with the bytes `-MOVED`,
so handleResp calls UpdateSlotInfo for slot 5 and redirects to `h:1`. -/
theorem handleResp_routing_counterexample :
    (Fields "-MOVEDX 5 h:1\r\n".toList).head? ≠ some MOVED ∧
    (Fields "-MOVEDX 5 h:1\r\n".toList).head? ≠ some ASK ∧
    (match handleResp okWorld { reqWg := 1 } (backendReply 0 "-MOVEDX 5 h:1\r\n".toList) with
      | .ok (s', _) => routing s'.net.log
      | .error _ => [])
      = [Event.updateSlotInfo 5 5 "h:1".toList, Event.getConn "h:1".toList] := by
  decide

/-- C2, at a failing input. The replies of seq 1 and seq 0 arrive in this order, both
without error; the client write of seq 0 fails. handleRespPipeline returns the error
before it looks at the heap: after both arrivals rspSeq is 1, the wait group has been
decremented once and the reply of seq 1 is still in the heap. The same holds when seq 0
carries an error instead. -/
theorem feed_leaves_heap_after_error :
    feed brokenPipeWorld [backendReply 1 "$-1\r\n".toList, backendReply 0 "+OK\r\n".toList]
        { reqSeq := 2, reqWg := 2 } =
      .ok { reqSeq := 2, rspSeq := 1, reqWg := 1, closed := true,
            rspHeap := [backendReply 1 "$-1\r\n".toList],
            net := ⟨1, [Event.wgDone, Event.clientWrite "+OK\r\n".toList, Event.clientClose]⟩ } ∧
    feed okWorld [backendReply 1 "$-1\r\n".toList, backendError 0 "EOF".toList]
        { reqSeq := 2, reqWg := 2 } =
      .ok { reqSeq := 2, rspSeq := 1, reqWg := 1, closed := true,
            rspHeap := [backendReply 1 "$-1\r\n".toList],
            net := ⟨0, [Event.wgDone, Event.triggerReloadSlots, Event.clientClose]⟩ } := by
  decide

/-- C3, at a failing input. A response of seq 0 with the error `EOF` on an open session:
handleResp asks for the slot reload and returns the error; the reply `-EOF` built from it
is not written to the client. -/
theorem handleResp_error_not_written :
    handleResp okWorld { reqSeq := 1, reqWg := 1 } (backendError 0 "EOF".toList) =
      .ok ({ reqSeq := 1, rspSeq := 1, reqWg := 0,
             net := ⟨0, [Event.wgDone, Event.triggerReloadSlots]⟩ }, some "EOF".toList) := by
  decide

/-- C4, at a failing input. `SUBSCRIBE ch` as the first command of a session: ReadingLoop
takes seq 0 and sends the local reply `-unsupported command` on backQ, with no call to
the dispatcher and no change of reqWg; the request of that reply has a nil wait group,
and handleResp stops the process on it instead of writing the reply. -/
theorem handleResp_local_reply_aborts :
    readCommand subscribeOnly {} ⟨["subscribe".toList, "ch".toList]⟩ =
      .ok { reqSeq := 1, backQ := [localReply 0] } ∧
    (localReply 0).rsp = some "-unsupported command\r\n".toList ∧
    (localReply 0).ctx.wg = Ptr.nil ∧
    handleResp okWorld { reqSeq := 1 } (localReply 0) = .error .nilDereference := by
  decide

/-- What handleResp does with a response that carries an error. -/
theorem handleResp_err (w : World) (s : Session) (plRsp : PipelineResponse) (e : GoString)
    (k : Nat) (hseq : plRsp.ctx.seq = s.rspSeq) (hwg : plRsp.ctx.wg = .session)
    (hk : s.reqWg = k + 1) (herr : plRsp.err = some e) :
    handleResp w s plRsp =
      .ok ({ s with reqWg := k, rspSeq := wrapInt64 (s.rspSeq + 1),
                    net := ⟨s.net.clock, s.net.log ++ [.wgDone, .triggerReloadSlots]⟩ },
           some e) := by
  simp [handleResp, hseq, wgDone, hwg, hk, herr, Net.emit]

/-! ## The reorder heap delivers in order -/

theorem sequenced_ge (k : Nat) (l : List PipelineResponse) (h : Sequenced k l) :
    ∀ x ∈ l, (k : Int) ≤ x.ctx.seq := by
  induction l generalizing k with
  | nil => simp
  | cons r rest ih =>
    intro x hx
    rcases List.mem_cons.mp hx with rfl | hx
    · exact le_of_eq h.1.symm
    · have := ih (k + 1) h.2 x hx
      push_cast at this
      omega

theorem sequenced_append (k : Nat) (a b : List PipelineResponse) (h : Sequenced k (a ++ b)) :
    Sequenced (k + a.length) b := by
  induction a generalizing k with
  | nil => simpa using h
  | cons r rest ih =>
    have := ih (k + 1) h.2
    rw [List.length_cons, show k + (rest.length + 1) = k + 1 + rest.length by omega]
    exact this

theorem heapPush_head (x : PipelineResponse) (h : List PipelineResponse)
    (hle : ∀ y ∈ h, x.ctx.seq ≤ y.ctx.seq) : heapPush x h = x :: h := by
  cases h with
  | nil => rfl
  | cons y ys => simp [heapPush, hle y (List.mem_cons_self _ _)]

theorem arrivedOf_cons_of_not_mem (A l : List PipelineResponse) (r : PipelineResponse)
    (h : r ∉ l) : arrivedOf (r :: A) l = arrivedOf A l := by
  unfold arrivedOf
  apply List.filter_congr
  intro x hx
  have : x ≠ r := fun e => h (e ▸ hx)
  simp [this]

/-- Pushing an arrival on the heap of the arrived responses gives the heap of the
arrived responses. -/
theorem heapPush_arrived (k : Nat) (l A : List PipelineResponse) (r : PipelineResponse)
    (hs : Sequenced k l) (hr : r ∈ l) (hA : r ∉ A) :
    heapPush r (arrivedOf A l) = arrivedOf (r :: A) l := by
  induction l generalizing k with
  | nil => simp at hr
  | cons x rest ih =>
    have hge := sequenced_ge (k + 1) rest hs.2
    by_cases hx : r = x
    · subst hx
      have hnot : r ∉ rest := by
        intro hmem
        have := hge r hmem
        have h1 := hs.1
        push_cast at this
        omega
      have hle : ∀ y ∈ arrivedOf A rest, r.ctx.seq ≤ y.ctx.seq := by
        intro y hy
        have := hge y (List.mem_of_mem_filter hy)
        have h1 := hs.1
        push_cast at this
        omega
      have e1 : arrivedOf A (r :: rest) = arrivedOf A rest := by
        simp [arrivedOf, List.filter_cons, hA]
      have e2 : arrivedOf (r :: A) (r :: rest) = r :: arrivedOf A rest := by
        rw [← arrivedOf_cons_of_not_mem A rest r hnot]
        simp [arrivedOf, List.filter_cons]
      rw [e1, e2, heapPush_head r _ hle]
    · have hrest : r ∈ rest := by
        rcases List.mem_cons.mp hr with h | h
        · exact absurd h hx
        · exact h
      have hlt : ¬ r.ctx.seq ≤ x.ctx.seq := by
        have := hge r hrest
        have h1 := hs.1
        push_cast at this
        omega
      have hx' : x ≠ r := fun e => hx e.symm
      by_cases hxA : x ∈ A
      · have e1 : arrivedOf A (x :: rest) = x :: arrivedOf A rest := by
          simp [arrivedOf, List.filter_cons, hxA]
        have e2 : arrivedOf (r :: A) (x :: rest) = x :: arrivedOf (r :: A) rest := by
          simp [arrivedOf, List.filter_cons, hxA]
        rw [e1, e2, ← ih (k + 1) hs.2 hrest]
        simp [heapPush, hlt]
      · have e1 : arrivedOf A (x :: rest) = arrivedOf A rest := by
          simp [arrivedOf, List.filter_cons, hxA]
        have e2 : arrivedOf (r :: A) (x :: rest) = arrivedOf (r :: A) rest := by
          simp [arrivedOf, List.filter_cons, hxA, hx']
        rw [e1, e2, ih (k + 1) hs.2 hrest]

theorem wrapInt64_of_lt (x : Int) (h0 : 0 ≤ x) (h1 : x < 2 ^ 63) : wrapInt64 x = x := by
  unfold wrapInt64
  have h2 : (2 : Int) ^ 63 = 9223372036854775808 := by norm_num
  have h3 : (2 : Int) ^ 64 = 18446744073709551616 := by norm_num
  rw [h2] at h1 ⊢
  rw [h3]
  omega

/-- One plain response handled in order moves the session one step forward. -/
theorem handleResp_advance (w : World) (s0 : Session) (done heap : List PipelineResponse)
    (x : PipelineResponse) (hw : ∀ k, w.fail k = none) (hopen : s0.closed = false)
    (hseq : x.ctx.seq = (done.length : Int)) (hp : Plain x)
    (hcnt : done.length < s0.reqWg) (hlt : done.length + 1 < 2 ^ 63) :
    handleResp w (advance s0 done heap) x = .ok (advance s0 (done ++ [x]) heap, none) := by
  obtain ⟨herr, hwg, raw, hraw, hne, hm, ha⟩ := hp
  have hk : (advance s0 done heap).reqWg = (s0.reqWg - done.length - 1) + 1 := by
    simp only [advance]
    omega
  rw [handleResp_plain w (advance s0 done heap) x raw _ (by simp [advance, hseq]) hwg hk herr
    hraw hne hm ha]
  have hwrap : wrapInt64 ((done.length : Int) + 1) = (done.length : Int) + 1 := by
    apply wrapInt64_of_lt
    · omega
    · have : ((done.length + 1 : Nat) : Int) < ((2 ^ 63 : Nat) : Int) := by exact_mod_cast hlt
      push_cast at this
      exact this
  simp [advance, hopen, hw, hwrap, written, hraw, Nat.sub_sub, Nat.add_assoc]

theorem sequenced_nodup (k : Nat) (l : List PipelineResponse) (h : Sequenced k l) : l.Nodup := by
  induction l generalizing k with
  | nil => exact List.nodup_nil
  | cons r rest ih =>
    refine List.nodup_cons.mpr ⟨?_, ih (k + 1) h.2⟩
    intro hmem
    have := sequenced_ge (k + 1) rest h.2 r hmem
    have h1 := h.1
    push_cast at this
    omega

/-- The loop over the heap delivers the arrived responses that follow in sequence and
stops at the first one that has not arrived. -/
theorem drainHeap_advance (w : World) (s0 : Session) (A : List PipelineResponse)
    (hw : ∀ k, w.fail k = none) (hopen : s0.closed = false) :
    ∀ (todo done h0 : List PipelineResponse), Sequenced done.length todo →
      (∀ x ∈ todo, Plain x) → done.length + todo.length ≤ s0.reqWg →
      done.length + todo.length < 2 ^ 63 →
      ∃ d rest, todo = d ++ rest ∧ (∀ x ∈ d, x ∈ A) ∧ (∀ x, rest.head? = some x → x ∉ A) ∧
        drainHeap w (arrivedOf A todo) (advance s0 done h0) =
          .ok (advance s0 (done ++ d) (arrivedOf A rest), none) := by
  intro todo
  induction todo with
  | nil =>
    intro done h0 _ _ _ _
    exact ⟨[], [], rfl, by simp, by simp, by simp [arrivedOf, drainHeap, advance]⟩
  | cons x todo' ih =>
    intro done h0 hs hp hcnt hlt
    simp only [List.length_cons] at hcnt hlt
    by_cases hx : x ∈ A
    · have e1 : arrivedOf A (x :: todo') = x :: arrivedOf A todo' := by
        simp [arrivedOf, List.filter_cons, hx]
      have hh := handleResp_advance w s0 done h0 x hw hopen hs.1
        (hp x (List.mem_cons_self _ _)) (by omega) (by omega)
      have hs' : Sequenced (done ++ [x]).length todo' := by
        simpa using hs.2
      obtain ⟨d, rest, hsplit, hd, hrest, hdrain⟩ := ih (done ++ [x]) h0 hs'
        (fun y hy => hp y (List.mem_cons_of_mem _ hy)) (by simp; omega) (by simp; omega)
      refine ⟨x :: d, rest, by simp [hsplit], ?_, hrest, ?_⟩
      · intro y hy
        rcases List.mem_cons.mp hy with rfl | hy
        · exact hx
        · exact hd y hy
      · rw [e1]
        simp only [drainHeap]
        rw [if_neg (by simp [advance, hs.1]), hh]
        simpa using hdrain
    · have e1 : arrivedOf A (x :: todo') = arrivedOf A todo' := by
        simp [arrivedOf, List.filter_cons, hx]
      refine ⟨[], x :: todo', rfl, by simp, by simpa using hx, ?_⟩
      rw [e1]
      cases hH : arrivedOf A todo' with
      | nil => simp [drainHeap, advance]
      | cons y H =>
        have hy : y ∈ todo' := by
          have : y ∈ arrivedOf A todo' := by rw [hH]; exact List.mem_cons_self _ _
          exact List.mem_of_mem_filter this
        have hge := sequenced_ge _ _ hs.2 y hy
        have hne : y.ctx.seq ≠ (advance s0 done h0).rspSeq := by
          simp only [advance]
          push_cast at hge
          omega
        rw [drainHeap, if_pos hne]
        simp [advance]

/-- One arrival keeps the session in step with the responses: those delivered so far
are a prefix of the sequence, the heap holds the arrived ones among the others. -/
theorem handleRespPipeline_advance (w : World) (s0 : Session) (rs A : List PipelineResponse)
    (hw : ∀ k, w.fail k = none) (hopen : s0.closed = false) (hseq : Sequenced 0 rs)
    (hplain : ∀ x ∈ rs, Plain x) (hcnt : rs.length ≤ s0.reqWg) (hlt : rs.length < 2 ^ 63)
    (done todo : List PipelineResponse) (hsplit : rs = done ++ todo)
    (hdone : ∀ x ∈ done, x ∈ A) (hhead : ∀ x, todo.head? = some x → x ∉ A)
    (r : PipelineResponse) (hr : r ∈ rs) (hrA : r ∉ A) :
    ∃ done' todo', rs = done' ++ todo' ∧ (∀ x ∈ done', x ∈ r :: A) ∧
      (∀ x, todo'.head? = some x → x ∉ r :: A) ∧
      handleRespPipeline w (advance s0 done (arrivedOf A todo)) r =
        .ok (advance s0 done' (arrivedOf (r :: A) todo'), none) := by
  have hlen : rs.length = done.length + todo.length := by rw [hsplit]; simp
  have hst : Sequenced done.length todo := by
    have := sequenced_append 0 done todo (hsplit ▸ hseq)
    simpa using this
  have hrt : r ∈ todo := by
    rw [hsplit] at hr
    rcases List.mem_append.mp hr with h | h
    · exact absurd (hdone r h) hrA
    · exact h
  cases todo with
  | nil => simp at hrt
  | cons x todo' =>
    have hxA : x ∉ A := hhead x rfl
    have hge := sequenced_ge _ _ hst.2
    by_cases hrs : r.ctx.seq = (done.length : Int)
    · -- the arrival is the next response
      have hrx : r = x := by
        rcases List.mem_cons.mp hrt with h | h
        · exact h
        · have := hge r h
          push_cast at this
          omega
      subst hrx
      have hnot : r ∉ todo' := by
        intro hmem
        have := hge r hmem
        push_cast at this
        omega
      have hp : ∀ y ∈ todo', Plain y := fun y hy =>
        hplain y (by rw [hsplit]; simp [hy])
      simp only [List.length_cons] at hlen
      have hh := handleResp_advance w s0 done (arrivedOf A (r :: todo')) r hw hopen hrs
        (hplain r hr) (by omega) (by omega)
      have hs' : Sequenced (done ++ [r]).length todo' := by simpa using hst.2
      obtain ⟨d, rest, hsp, hd, hrest, hdrain⟩ := drainHeap_advance w s0 (r :: A) hw hopen todo'
        (done ++ [r]) (arrivedOf A (r :: todo')) hs' hp (by simp; omega) (by simp; omega)
      have e1 : arrivedOf A (r :: todo') = arrivedOf (r :: A) todo' := by
        rw [arrivedOf_cons_of_not_mem A todo' r hnot]
        simp [arrivedOf, List.filter_cons, hxA]
      refine ⟨done ++ [r] ++ d, rest, by simp [hsplit, hsp], ?_, hrest, ?_⟩
      · intro y hy
        rcases List.mem_append.mp hy with h | h
        · rcases List.mem_append.mp h with h | h
          · exact List.mem_cons_of_mem _ (hdone y h)
          · simp at h; simp [h]
        · exact hd y h
      · simp only [handleRespPipeline]
        rw [if_neg (by simp [advance, hrs]), hh]
        simp only [Option.isSome_none, Bool.false_eq_true, if_false]
        have : (advance s0 (done ++ [r]) (arrivedOf A (r :: todo'))).rspHeap
            = arrivedOf (r :: A) todo' := by simp [advance, e1]
        rw [this]
        exact hdrain
    · -- the arrival waits in the heap
      have hxr : x ≠ r := by
        intro e
        rw [← e] at hrs
        exact hrs hst.1
      refine ⟨done, x :: todo', hsplit, fun y hy => List.mem_cons_of_mem _ (hdone y hy), ?_, ?_⟩
      · intro y hy
        simp only [List.head?_cons, Option.some.injEq] at hy
        subst hy
        simp [hxA, hxr]
      · simp only [handleRespPipeline]
        rw [if_pos (by simpa [advance] using hrs)]
        simp [advance, heapPush_arrived done.length (x :: todo') A r hst hrt hrA]

theorem feed_advance (w : World) (s0 : Session) (rs : List PipelineResponse)
    (hw : ∀ k, w.fail k = none) (hopen : s0.closed = false) (hseq : Sequenced 0 rs)
    (hplain : ∀ x ∈ rs, Plain x) (hcnt : rs.length ≤ s0.reqWg) (hlt : rs.length < 2 ^ 63) :
    ∀ (arr A done todo : List PipelineResponse), rs = done ++ todo →
      (∀ x ∈ done, x ∈ A) → (∀ x, todo.head? = some x → x ∉ A) →
      (∀ r ∈ arr, r ∈ rs ∧ r ∉ A) → arr.Nodup →
      ∃ done' todo', rs = done' ++ todo' ∧ (∀ x ∈ done', x ∈ arr.reverse ++ A) ∧
        (∀ x, todo'.head? = some x → x ∉ arr.reverse ++ A) ∧
        feed w arr (advance s0 done (arrivedOf A todo)) =
          .ok (advance s0 done' (arrivedOf (arr.reverse ++ A) todo')) := by
  intro arr
  induction arr with
  | nil =>
    intro A done todo hsplit hdone hhead _ _
    exact ⟨done, todo, hsplit, by simpa using hdone, by simpa using hhead, by simp [feed]⟩
  | cons r rest ih =>
    intro A done todo hsplit hdone hhead hmem hnd
    obtain ⟨hr, hrA⟩ := hmem r (List.mem_cons_self _ _)
    obtain ⟨done1, todo1, hsplit1, hdone1, hhead1, hstep⟩ :=
      handleRespPipeline_advance w s0 rs A hw hopen hseq hplain hcnt hlt done todo hsplit
        hdone hhead r hr hrA
    have hnd' := List.nodup_cons.mp hnd
    obtain ⟨done2, todo2, hsplit2, hdone2, hhead2, hfeed⟩ :=
      ih (r :: A) done1 todo1 hsplit1 hdone1 hhead1
        (fun y hy => ⟨(hmem y (List.mem_cons_of_mem _ hy)).1, by
          intro h
          rcases List.mem_cons.mp h with h | h
          · exact hnd'.1 (h ▸ hy)
          · exact (hmem y (List.mem_cons_of_mem _ hy)).2 h⟩)
        hnd'.2
    have e : (r :: rest).reverse ++ A = rest.reverse ++ r :: A := by simp
    refine ⟨done2, todo2, hsplit2, e ▸ hdone2, e ▸ hhead2, ?_⟩
    simp only [feed, hstep, Option.isSome_none, Bool.false_eq_true, if_false]
    rw [e]
    exact hfeed

/-- The plain responses of the sequence numbers 0..n-1, fed in any order, leave the
session where their delivery in order leaves it. -/
theorem feed_sequence (w : World) (s0 : Session) (rs arr : List PipelineResponse)
    (hw : ∀ k, w.fail k = none) (h0 : s0.rspSeq = 0) (hheap : s0.rspHeap = [])
    (hopen : s0.closed = false) (hseq : Sequenced 0 rs) (hplain : ∀ x ∈ rs, Plain x)
    (hperm : arr.Perm rs) (hcnt : rs.length ≤ s0.reqWg) (hlt : rs.length < 2 ^ 63) :
    feed w arr s0 = .ok (advance s0 rs []) := by
  have hnd : arr.Nodup := hperm.nodup_iff.mpr (sequenced_nodup 0 rs hseq)
  obtain ⟨done, todo, hsplit, hdone, hhead, hfeed⟩ :=
    feed_advance w s0 rs hw hopen hseq hplain hcnt hlt arr [] [] rs rfl (by simp) (by simp)
      (fun r hr => ⟨hperm.mem_iff.mp hr, by simp⟩) hnd
  have hs0 : advance s0 [] (arrivedOf [] rs) = s0 := by
    cases s0
    simp only [advance, arrivedOf] at *
    simp [h0, hheap]
  rw [hs0] at hfeed
  have htodo : todo = [] := by
    cases todo with
    | nil => rfl
    | cons x t =>
      exfalso
      have hx : x ∈ rs := by rw [hsplit]; simp
      exact hhead x rfl (by simpa using hperm.mem_iff.mpr hx)
  subst htodo
  simp only [List.append_nil] at hsplit
  subst hsplit
  simpa [arrivedOf] using hfeed

theorem clientWrites_written (rs : List PipelineResponse) :
    clientWrites (rs.map written).flatten = rs.map (fun r => r.rsp.getD []) := by
  induction rs with
  | nil => rfl
  | cons r rest ih =>
    simp only [List.map_cons, List.flatten_cons, written, clientWrites] at ih ⊢
    simp [List.filterMap_cons, ih]

/-- C1, as the code has it. From a fresh session (rspSeq = 0, empty reorder heap, not
closed), for every n below 2^63 and every arrival order of n responses published by the
Dispatcher (their request carries the wait group of the session, which counts them) with
the sequence numbers 0..n-1, each with err = nil and a non-empty payload that begins
neither with `-MOVED` nor with `-ASK`, and with every client write succeeding: feeding
them one by one to handleRespPipeline writes to the client exactly the payloads in
increasing seq order, and ends with rspSeq = n, an empty heap and an open session. -/
theorem feed_in_order (w : World) (s0 : Session) (rs arr : List PipelineResponse)
    (hw : ∀ k, w.fail k = none) (h0 : s0.rspSeq = 0) (hheap : s0.rspHeap = [])
    (hopen : s0.closed = false) (hseq : Sequenced 0 rs) (hplain : ∀ x ∈ rs, Plain x)
    (hperm : arr.Perm rs) (hcnt : rs.length ≤ s0.reqWg) (hlt : rs.length < 2 ^ 63) :
    ∃ s', feed w arr s0 = .ok s' ∧ s'.rspSeq = (rs.length : Int) ∧ s'.rspHeap = [] ∧
      s'.closed = false ∧ s'.reqWg = s0.reqWg - rs.length ∧
      clientWrites s'.net.log = clientWrites s0.net.log ++ rs.map (fun r => r.rsp.getD []) := by
  refine ⟨advance s0 rs [], feed_sequence w s0 rs arr hw h0 hheap hopen hseq hplain hperm hcnt hlt,
    rfl, rfl, hopen, rfl, ?_⟩
  simp only [advance, clientWrites, List.filterMap_append]
  exact congrArg _ (clientWrites_written rs)

/-- Witness of C1: the two replies of the spec, seq 1 = `$-1` before seq 0 = `+OK`; the
client sees `+OK` then `$-1`. -/
theorem feed_in_order_witness :
    ∃ s', feed okWorld [backendReply 1 "$-1\r\n".toList, backendReply 0 "+OK\r\n".toList]
        { reqSeq := 2, reqWg := 2 } = .ok s' ∧ s'.rspSeq = 2 ∧ s'.rspHeap = [] ∧
      s'.closed = false ∧ s'.reqWg = 0 ∧
      clientWrites s'.net.log = ["+OK\r\n".toList, "$-1\r\n".toList] :=
  feed_in_order okWorld { reqSeq := 2, reqWg := 2 }
    [backendReply 0 "+OK\r\n".toList, backendReply 1 "$-1\r\n".toList]
    [backendReply 1 "$-1\r\n".toList, backendReply 0 "+OK\r\n".toList]
    (fun _ => rfl) rfl rfl rfl ⟨rfl, rfl, trivial⟩
    (fun x hx => by
      simp only [List.mem_cons, List.mem_singleton, List.not_mem_nil, or_false] at hx
      rcases hx with rfl | rfl <;>
        exact ⟨rfl, rfl, _, rfl, by decide, by decide, by decide⟩)
    (List.Perm.swap _ _ _) (by decide) (by decide)

/-- The bound of the round trip is the range of `int`: on the decimal text of 2^63
`strconv.Atoi` reports a range error and ParseRedirectInfo aborts. -/
theorem ParseRedirectInfo_out_of_int :
    decimal (2 ^ 63) = "9223372036854775808".toList ∧
    ParseRedirectInfo (redirectText MOVED (2 ^ 63) "10.0.0.2:6379".toList ++ CRLF)
      = .error .fatal := by
  decide

/-- C9, counterexample. Neither -1 nor 16384 is a slot number (the slots are 0..16383),
yet `-MOVED -1 h:1` and `-MOVED 16384 h:1` are read as the slots -1 and 16384 instead of
aborting: the second field is only required to be a decimal integer that fits `int`. -/
theorem ParseRedirectInfo_cases_counterexample :
    ParseRedirectInfo "-MOVED -1 h:1\r\n".toList = .ok (-1, "h:1".toList) ∧
    ParseRedirectInfo "-MOVED 16384 h:1\r\n".toList = .ok (16384, "h:1".toList) := by
  decide

/-- Witness of C10: the backend answers READONLY with an error, the connection is closed
and the error returned; without sendReadOnly nothing is done. -/
theorem postConnect_spec_witness :
    (∃ n' e', ConnPool.postConnect ⟨4, 1, true⟩ refusingWorld {} (some 7) none
        = .ok (n', some 7, e') ∧
      (e'.isSome = true ↔
        ((refusingWorld.fail 0).isSome = true ∨ (refusingWorld.fail (0 + 1)).isSome = true ∨
          (refusingWorld.reply (0 + 1)).head? = some '-')) ∧
      n'.log = [] ++
        (Event.connWrite (NewCommand ["READONLY".toList]) ::
          (if (refusingWorld.fail 0).isSome then [] else [Event.connRead])) ++
        (if e'.isSome then [Event.connClose] else [])) ∧
    ConnPool.postConnect ⟨4, 1, false⟩ refusingWorld {} (some 7) none = .ok ({}, some 7, none) :=
  ⟨(postConnect_spec ⟨4, 1, true⟩ refusingWorld {} none 7 none).1 rfl,
   (postConnect_spec ⟨4, 1, false⟩ refusingWorld {} (some 7) 7 none).2 (Or.inl rfl)⟩

/-- C1, counterexample. First, one response of seq 0 without error whose payload
`-MOVEDX 5 h:1` is neither a MOVED nor an ASK error: it begins with the bytes `-MOVED`, so
it is redirected, and the client receives the reply of the second backend, not the
payload. Second, the client sends `SUBSCRIBE ch` then `GET x`; the backend reply of seq 1
arrives first and waits in the heap; when the local reply of seq 0 arrives, handleResp
dereferences the nil wait group of its request and the process stops, nothing being
written. -/
theorem feed_in_order_counterexample :
    ((Fields "-MOVEDX 5 h:1\r\n".toList).head? ≠ some MOVED ∧
     (Fields "-MOVEDX 5 h:1\r\n".toList).head? ≠ some ASK ∧
     (match feed okWorld [backendReply 0 "-MOVEDX 5 h:1\r\n".toList]
          { reqSeq := 1, reqWg := 1 } with
       | .ok s => clientWrites s.net.log
       | .error _ => [])
       = ["+OK\r\n".toList] ∧
     ["+OK\r\n".toList] ≠ ["-MOVEDX 5 h:1\r\n".toList]) ∧
    (ReadingLoop subscribeOnly [⟨["subscribe".toList, "ch".toList]⟩, getX] {} =
       .ok { reqSeq := 2, reqWg := 1, backQ := [localReply 0],
             net := ⟨0, [Event.wgAdd, Event.schedule (backendReply 1 []).ctx]⟩ } ∧
     feed okWorld [backendReply 1 "$-1\r\n".toList, localReply 0] { reqSeq := 2, reqWg := 1 } =
       .error .nilDereference) := by
  decide

end Proxy
